import Mathlib

/-!
Verification development for the phrase-difficulty scoring engine.

Embedded sources:
* scripts/phrase_difficulty.py — class PhraseDifficultyAnalyzer: lemma
  resolution against Wiktionary with a file cache, translation to English
  with a file cache, Glasgow-norms AoA lookup, epitran IPA conversion,
  panphon-based phoneme complexity, syllable counting, and the composite
  difficulty score (analyze_phrase).
* scripts/update-difficulty.py — score_to_level.

Modelling conventions:
* Python floats are idealised as rationals.  To keep every definition
  kernel-computable, arithmetic on ℚ is expressed through the helper
  operations qadd, qsub, qmul, qdiv, qmin, qle, qlt, pyFloor below, each
  proved equal to the corresponding Mathlib operation.  Python's x / 0
  would raise ZeroDivisionError; the model follows Lean's convention
  x / 0 = 0 (no division by zero is reachable in the analysed paths,
  except for a hypothetical empty panphon feature vector, noted at
  phonemeContribution).
* Python str.lower / str.strip / str.split / str.isalnum are modelled by
  pyLower / pyStrip / pySplit / Char.isAlphanum over the character list
  (ASCII behaviour; all concrete inputs used below are ASCII).
* External I/O (the Wiktionary HTTP fetch, Google Translate, the epitran
  transliterator, the panphon feature table, the Glasgow-norms AoA store)
  is modelled by an environment record Env of deterministic oracle
  functions; a call that can raise a Python exception is modelled with
  Except.  The pure regex extraction _extract_lemma_from_wiktionary is
  abstracted as the oracle field extract (no claim depends on its
  internals); per the source it returns None or a stripped match group.
* The two on-disk caches (wiktionary/<lang>/<clean>.txt and
  translations-to-en/<lang>/<clean>.txt) are modelled as the state
  record St; file content is the stored string, reading applies .strip()
  exactly as _load_lemma_from_cache / _load_translation_from_cache do.
-/

/-! ## Kernel-computable rational arithmetic, bridged to Mathlib's ℚ -/

/-- Addition on ℚ by the num/den formula (kernel-computable). -/
def qadd (a b : ℚ) : ℚ := mkRat (a.num * b.den + b.num * a.den) (a.den * b.den)

/-- Multiplication on ℚ by the num/den formula (kernel-computable). -/
def qmul (a b : ℚ) : ℚ := mkRat (a.num * b.num) (a.den * b.den)

/-- Negation on ℚ (kernel-computable). -/
def qneg (a : ℚ) : ℚ := mkRat (-a.num) a.den

/-- Subtraction on ℚ (kernel-computable). -/
def qsub (a b : ℚ) : ℚ := qadd a (qneg b)

/-- Inverse on ℚ (kernel-computable); qinv 0 = 0. -/
def qinv (a : ℚ) : ℚ := Rat.divInt a.den a.num

/-- Division on ℚ (kernel-computable); qdiv a 0 = 0. -/
def qdiv (a b : ℚ) : ℚ := qmul a (qinv b)

/-- Boolean a ≤ b on ℚ (kernel-computable). -/
def qle (a b : ℚ) : Bool := !(Rat.blt b a)

/-- Boolean a < b on ℚ (kernel-computable). -/
def qlt (a b : ℚ) : Bool := Rat.blt a b

/-- Python min on two rationals (kernel-computable). -/
def qmin (a b : ℚ) : ℚ := if qle a b then a else b

/-- Floor of a rational (kernel-computable). -/
def pyFloor (q : ℚ) : ℤ := q.num / q.den

/-- Sum of a list of rationals (kernel-computable). -/
def qsum : List ℚ → ℚ
  | [] => 0
  | x :: xs => qadd x (qsum xs)

/-! ## Python string primitives over character lists -/

/-- Python str.lower (ASCII core). -/
def pyLower (s : String) : String := String.mk (s.toList.map Char.toLower)

/-- Characters of a string with leading and trailing whitespace removed. -/
def trimChars (l : List Char) : List Char :=
  ((l.dropWhile Char.isWhitespace).reverse.dropWhile Char.isWhitespace).reverse

/-- Python str.strip(). -/
def pyStrip (s : String) : String := String.mk (trimChars s.toList)

/-- The cache-key projection used by _get_wiktionary_cache_file and
_get_translation_cache_file: join of the alphanumeric characters of
word.lower() (source line: word_clean = join of c for c in word.lower()
if c.isalnum()). -/
def cleanWord (w : String) : String :=
  String.mk (((pyLower w).toList).filter Char.isAlphanum)

/-- Helper for pySplit: accumulate maximal runs of non-whitespace. -/
def splitAux : List Char → List Char → List (List Char)
  | [], acc => if acc = [] then [] else [acc.reverse]
  | c :: rest, acc =>
    if c.isWhitespace then
      if acc = [] then splitAux rest [] else acc.reverse :: splitAux rest []
    else splitAux rest (c :: acc)

/-- Python str.split() with no separator: maximal whitespace runs delimit
words, no empty words are produced. -/
def pySplit (s : String) : List String := (splitAux s.toList []).map String.mk

/-! ## Python round (half to even) -/

/-- Python round(q): round half to even, kernel-computable form. -/
def pythonRound (q : ℚ) : ℤ :=
  let n : ℤ := pyFloor q
  let f : ℚ := qsub q (mkRat n 1)
  if qlt f (mkRat 1 2) then n
  else if qlt (mkRat 1 2) f then n + 1
  else if n % 2 = 0 then n else n + 1

/-- Python round(q, d), rounding to d decimal digits. -/
def roundTo (d : ℕ) (q : ℚ) : ℚ := mkRat (pythonRound (qmul q (mkRat (10 ^ d) 1))) (10 ^ d)

/-! ## Environment (external oracles) and cache state -/

/-- Outcome of one Wiktionary API fetch (urllib + JSON decode) in
get_lemma_from_wiktionary, as observed by the code after the try block
starts. -/
inductive WikiFetch where
  | raised
  | pageMissing
  | page (content : String)
  | empty

/-- Deterministic oracles for every external dependency of
PhraseDifficultyAnalyzer. -/
structure Env where
  fetchWiki : String → String → WikiFetch
  extract : String → String → Option String
  translator : String → String → Except Unit String
  epitran : String → String → Except Unit String
  ipaSegs : String → List String
  featVec : String → Option (List ℤ)
  aoaStore : String → Option ℚ

/-- The two persistent file caches, keyed by (language, cleanWord word);
the stored string is the file content as written. -/
structure St where
  lemmaCache : String → String → Option String
  transCache : String → String → Option String

/-- Source _load_lemma_from_cache: read wiktionary/<lang>/<clean>.txt,
strip, and treat an empty string as a miss (return lemma if lemma else None). -/
def loadLemma (st : St) (lang word : String) : Option String :=
  match st.lemmaCache lang (cleanWord word) with
  | none => none
  | some content => if pyStrip content = "" then none else some (pyStrip content)

/-- Source _save_lemma_to_cache: write the lemma string to the cache file. -/
def saveLemma (st : St) (lang word lem : String) : St :=
  ⟨fun l w => if l = lang ∧ w = cleanWord word then some lem else st.lemmaCache l w,
   st.transCache⟩

/-- Source _load_translation_from_cache: read and strip the cached
translation; unlike the lemma cache, an empty string still counts as a hit. -/
def loadTranslation (st : St) (lang word : String) : Option String :=
  (st.transCache lang (cleanWord word)).map pyStrip

/-- Source _save_translation_to_cache. -/
def saveTranslation (st : St) (lang word t : String) : St :=
  ⟨st.lemmaCache,
   fun l w => if l = lang ∧ w = cleanWord word then some t else st.transCache l w⟩

/-! ## Lemma Resolver (get_lemma_from_wiktionary) -/

/-- Source get_lemma_from_wiktionary.  Returns the lemma, the updated cache
state, and the number of external fetches performed (0 or 1).  The dict
lookup lang_domain[lang] sits before the try block, so a language other
than "de"/"en" raises KeyError on a cache miss (modelled as .error ()).
All failures inside the try block fall back to caching word -> word. -/
def get_lemma_from_wiktionary (env : Env) (st : St) (lang word : String) :
    Except Unit (String × St × ℕ) :=
  match loadLemma st lang word with
  | some cached => .ok (cached, st, 0)
  | none =>
    if lang = "de" ∨ lang = "en" then
      match env.fetchWiki lang word with
      | .raised => .ok (word, saveLemma st lang word word, 1)
      | .pageMissing => .ok (word, saveLemma st lang word word, 1)
      | .empty => .ok (word, saveLemma st lang word word, 1)
      | .page content =>
        match env.extract lang content with
        | some lem =>
          if lem = "" then .ok (word, saveLemma st lang word word, 1)
          else .ok (lem, saveLemma st lang word lem, 1)
        | none => .ok (word, saveLemma st lang word word, 1)
    else .error ()

/-! ## Cross-lingual AoA mapper -/

/-- Source translate_to_english.  For "en" the word is lower-cased with no
external call; otherwise the cache is consulted and on a miss the Google
Translate call runs with no exception handler, so a translator failure
propagates.  Returns (result, state, number of translate calls). -/
def translate_to_english (env : Env) (st : St) (source_lang word : String) :
    Except Unit (String × St × ℕ) :=
  if source_lang = "en" then .ok (pyLower word, st, 0)
  else
    match loadTranslation st source_lang word with
    | some cached => .ok (cached, st, 0)
    | none =>
      match env.translator source_lang word with
      | .error e => .error e
      | .ok translated =>
        let result := if translated ≠ "" ∧ pyLower translated ≠ pyLower word
                      then pyLower translated else pyLower word
        .ok (result, saveTranslation st source_lang word result, 1)

/-- Source get_aoa: look up word.lower().strip() in the Glasgow-norms store;
on a miss return 16.0 when use_adult_fallback else None.  No other key
variant is tried. -/
def get_aoa (env : Env) (word : String) (use_adult_fallback : Bool) : Option ℚ :=
  match env.aoaStore (pyStrip (pyLower word)) with
  | some a => some a
  | none => if use_adult_fallback then some 16 else none

/-! ## Phoneme complexity and syllables -/

/-- Source text_to_ipa: epitran converters exist exactly for "en" and "de";
other languages yield None without any call.  The transliterate call has no
exception handler. -/
def text_to_ipa (env : Env) (text language : String) : Except Unit (Option String) :=
  if language = "en" ∨ language = "de" then
    match env.epitran language text with
    | .error e => .error e
    | .ok ipa => .ok (some ipa)
  else .ok none

/-- One phoneme's contribution in calculate_phoneme_complexity: unknown
phonemes (word_to_vector_list returns no vectors) count 1.0; otherwise the
fraction of non-zero entries.  Python would raise ZeroDivisionError on an
empty feature vector; panphon vectors always have 24 entries, and the model
uses the x / 0 = 0 convention in that unreachable case. -/
def phonemeContribution (env : Env) (p : String) : ℚ :=
  match env.featVec p with
  | none => 1
  | some v => qdiv (mkRat ((v.filter (fun f => f ≠ 0)).length) 1) (mkRat v.length 1)

/-- Source calculate_phoneme_complexity: mean contribution over
ft.ipa_segs(ipa); empty segmentation yields 0.0. -/
def calculate_phoneme_complexity (env : Env) (ipa : String) : ℚ :=
  let phonemes := env.ipaSegs ipa
  if phonemes = [] then 0
  else qdiv (qsum (phonemes.map (phonemeContribution env))) (mkRat phonemes.length 1)

/-- The vowel alphabet of calculate_syllable_count. -/
def vowels : List Char := "aeiouäöüAEIOUÄÖÜ".toList

/-- Helper for calculate_syllable_count: count transitions from non-vowel
(or start) into a vowel. -/
def syllAux : List Char → Bool → ℕ
  | [], _ => 0
  | c :: rest, prev =>
    let isV := c ∈ vowels
    (if isV && !prev then 1 else 0) + syllAux rest isV

/-- Source calculate_syllable_count: vowel-run count, at least 1. -/
def calculate_syllable_count (w : String) : ℕ := max 1 (syllAux w.toList false)

/-! ## Scoring engine -/

/-- Length component: min(25, avg_word_length / 15 * 25). -/
def length_score (avg_word_length : ℚ) : ℚ := qmin 25 (qmul (qdiv avg_word_length 15) 25)

/-- Word-count component: min(10, word_count / 10 * 10). -/
def word_count_score (word_count : ℕ) : ℚ := qmin 10 (qmul (qdiv (mkRat word_count 1) 10) 10)

/-- AoA component: min(40, (avg_aoa - 2) / 16 * 40); capped above only. -/
def aoa_score (avg_aoa : ℚ) : ℚ := qmin 40 (qmul (qdiv (qsub avg_aoa 2) 16) 40)

/-- Syllable-density component: min(10, syllable_density / 4 * 10). -/
def syllable_score (syllable_density : ℚ) : ℚ := qmin 10 (qmul (qdiv syllable_density 4) 10)

/-- Phoneme component: phoneme_complexity * 15 (no explicit min). -/
def phoneme_score (phoneme_complexity : ℚ) : ℚ := qmul phoneme_complexity 15

/-- Per-word entry of the word_details list built by analyze_phrase. -/
structure WordAnalysis where
  word : String
  lemma' : Option String
  english : Option String
  aoa : Option ℚ
  syllables : ℕ
  phonemeComplexity : Option ℚ
  ipa : Option String

/-- The first two steps of the per-word loop body in analyze_phrase:
lemma := get_lemma_from_wiktionary(word, language) followed by
english_word := translate_to_english(lemma, language).  Also reports the
two external call counts (wiktionary fetches, translate calls). -/
def lemmaEnglish (env : Env) (st : St) (word language : String) :
    Except Unit (String × String × St × ℕ × ℕ) :=
  match get_lemma_from_wiktionary env st language word with
  | .error e => .error e
  | .ok (lem, st1, wf) =>
    match translate_to_english env st1 language lem with
    | .error e => .error e
    | .ok (english_word, st2, tf) => .ok (lem, english_word, st2, wf, tf)

/-- The per-word loop body of analyze_phrase. -/
def analyzeWord (env : Env) (st : St) (word language : String) :
    Except Unit (WordAnalysis × St) :=
  match lemmaEnglish env st word language with
  | .error e => .error e
  | .ok (lem, english_word, st2, _, _) =>
    let aoa := get_aoa env english_word true
    let syllables := calculate_syllable_count word
    match text_to_ipa env word language with
    | .error e => .error e
    | .ok ipa =>
      let phoneme_complexity : Option ℚ :=
        match ipa with
        | some s => if s ≠ "" then some (calculate_phoneme_complexity env s) else none
        | none => none
      .ok ({ word := word,
             lemma' := if lem ≠ word then some lem else none,
             english := if language ≠ "en" then some english_word else none,
             aoa := aoa,
             syllables := syllables,
             phonemeComplexity := phoneme_complexity,
             ipa := ipa }, st2)

/-- The word loop of analyze_phrase, threading the cache state in order. -/
def analyzeWords (env : Env) (language : String) : St → List String → Except Unit (List WordAnalysis × St)
  | st, [] => .ok ([], st)
  | st, w :: ws =>
    match analyzeWord env st w language with
    | .error e => .error e
    | .ok (d, st') =>
      match analyzeWords env language st' ws with
      | .error e => .error e
      | .ok (ds, st'') => .ok (d :: ds, st'')

/-- The five score components as returned in score_components (rounded to
one digit each, like the source dict). -/
structure ScoreComponents where
  length_score : ℚ
  word_count_score : ℚ
  aoa_score : ℚ
  syllable_score : ℚ
  phoneme_score : ℚ

/-- Sum of the five components. -/
def ScoreComponents.total (c : ScoreComponents) : ℚ :=
  c.length_score + c.word_count_score + c.aoa_score + c.syllable_score + c.phoneme_score

/-- Source _get_difficulty_level. -/
def get_difficulty_level (score : ℚ) : String :=
  if qlt score 20 then "Very Easy"
  else if qlt score 40 then "Easy"
  else if qlt score 60 then "Medium"
  else if qlt score 80 then "Hard"
  else "Very Hard"

/-- The result dict of analyze_phrase for a non-empty phrase.
aoa_available_for models the f-string "len(aoa_scores)/word_count words"
as the pair of the two numbers. -/
structure PhraseRecord where
  phrase : String
  language : String
  word_count : ℕ
  char_count : ℕ
  avg_word_length : ℚ
  total_syllables : ℕ
  avg_syllables_per_word : ℚ
  avg_aoa : Option ℚ
  aoa_available_for : ℕ × ℕ
  phoneme_complexity : ℚ
  difficulty_score : ℚ
  difficulty_level : String
  word_details : List WordAnalysis
  score_components : ScoreComponents

/-- The aoa_scores list collected by the word loop (every element of
word_details carries its aoa). -/
def aoaScores (details : List WordAnalysis) : List ℚ := details.filterMap fun d => d.aoa

/-- avg_aoa of analyze_phrase: mean of aoa_scores, 16.0 when empty. -/
def avgAoA (details : List WordAnalysis) : ℚ :=
  if aoaScores details = [] then 16
  else qdiv (qsum (aoaScores details)) (mkRat ((aoaScores details).length : ℤ) 1)

/-- phoneme_complexities of analyze_phrase: the defined, strictly positive
per-word complexity values. -/
def positivePcs (details : List WordAnalysis) : List ℚ :=
  (details.filterMap fun d => d.phonemeComplexity).filter fun x => qlt 0 x

/-- Aggregate phoneme_complexity of analyze_phrase: mean of the qualifying
per-word values, 0.75 when none qualify. -/
def aggregatePc (details : List WordAnalysis) : ℚ :=
  if positivePcs details = [] then mkRat 3 4
  else qdiv (qsum (positivePcs details)) (mkRat ((positivePcs details).length : ℤ) 1)

/-- avg_word_length of analyze_phrase: char_count / word_count. -/
def avgWordLength (words : List String) : ℚ :=
  qdiv (mkRat ((words.map String.length).sum : ℤ) 1) (mkRat (words.length : ℤ) 1)

/-- syllable_density of analyze_phrase: total_syllables / word_count. -/
def syllableDensity (words : List String) : ℚ :=
  qdiv (mkRat ((words.map calculate_syllable_count).sum : ℤ) 1) (mkRat (words.length : ℤ) 1)

/-- The unrounded composite difficulty_score accumulated by analyze_phrase:
sum of the five components, in accumulation order. -/
def rawScore (words : List String) (details : List WordAnalysis) : ℚ :=
  qadd (qadd (qadd (qadd (length_score (avgWordLength words))
    (word_count_score words.length)) (aoa_score (avgAoA details)))
    (syllable_score (syllableDensity words))) (phoneme_score (aggregatePc details))

/-- The aggregation and scoring tail of analyze_phrase (everything after
the word loop), as a function of the split words and the collected
word_details. -/
def mkRecord (phrase language : String) (words : List String) (details : List WordAnalysis) :
    PhraseRecord :=
  { phrase := phrase
    language := language
    word_count := words.length
    char_count := (words.map String.length).sum
    avg_word_length := roundTo 2 (avgWordLength words)
    total_syllables := (words.map calculate_syllable_count).sum
    avg_syllables_per_word := roundTo 2 (syllableDensity words)
    avg_aoa := if avgAoA details = 0 then none else some (roundTo 2 (avgAoA details))
    aoa_available_for := ((aoaScores details).length, words.length)
    phoneme_complexity := aggregatePc details
    difficulty_score := roundTo 1 (rawScore words details)
    difficulty_level := get_difficulty_level (rawScore words details)
    word_details := details
    score_components := { length_score := roundTo 1 (length_score (avgWordLength words))
                          word_count_score := roundTo 1 (word_count_score words.length)
                          aoa_score := roundTo 1 (aoa_score (avgAoA details))
                          syllable_score := roundTo 1 (syllable_score (syllableDensity words))
                          phoneme_score := roundTo 1 (phoneme_score (aggregatePc details)) } }

/-- Result of analyze_phrase: the empty-phrase error dict carries
difficulty_score 0 and the "error" marker (constructor errorRecord). -/
inductive Output where
  | errorRecord (difficulty_score : ℚ)
  | record (r : PhraseRecord)

/-- Source analyze_phrase. -/
def analyze_phrase (env : Env) (st : St) (phrase language : String) :
    Except Unit (Output × St) :=
  let words := pySplit phrase
  if words = [] then .ok (.errorRecord 0, st)
  else
    match analyzeWords env language st words with
    | .error e => .error e
    | .ok (details, st') => .ok (.record (mkRecord phrase language words details), st')

/-! ## Level calibration (update-difficulty.py) -/

/-- The score_ranges dict of score_to_level. -/
def score_ranges (lang : String) : Option (ℚ × ℚ) :=
  if lang = "en-GB" then some (mkRat 168 10, mkRat 483 10)
  else if lang = "de-DE" then some (mkRat 228 10, mkRat 660 10)
  else if lang = "fr-FR" then some (mkRat 417 10, mkRat 664 10)
  else none

/-- Source score_to_level. -/
def score_to_level (score : ℚ) (lang : String) : ℤ :=
  match score_ranges lang with
  | none => max 1 (min 1000 (pythonRound (qmul score 10)))
  | some (min_score, max_score) =>
    let normalized := qdiv (qsub score min_score) (qsub max_score min_score)
    let level := pythonRound (qmul normalized 999) + 1
    max 1 (min 1000 level)

/-- Modelled from the spec: "level = clamp(round((score - min_L)/(max_L -
min_L) * 999) + 1, 1, 1000)" for languages with a calibration pair,
otherwise "clamp(round(score*10), 1, 1000)"; stated with Mathlib
operations for comparison with score_to_level. -/
def specLevel (score : ℚ) (lang : String) : ℤ :=
  match score_ranges lang with
  | some (lo, hi) => max 1 (min 1000 (pythonRound ((score - lo) / (hi - lo) * 999) + 1))
  | none => max 1 (min 1000 (pythonRound (score * 10)))

/-! ## Observation helpers and concrete fixtures -/

/-- True exactly when analyze_phrase returned a full (non-error) record
without raising. -/
def isFullRecord : Except Unit (Output × St) → Bool
  | .ok (.record _, _) => true
  | _ => false

/-- The difficulty_score of an analyze_phrase result, None when it raised. -/
def difficultyScoreOf : Except Unit (Output × St) → Option ℚ
  | .ok (.record r, _) => some r.difficulty_score
  | .ok (.errorRecord s, _) => some s
  | .error _ => none

/-- The record of a successful analyze_phrase run (junk record otherwise). -/
def recordOf : Except Unit (Output × St) → PhraseRecord
  | .ok (.record r, _) => r
  | _ => mkRecord "" "" [] []

/-- The final cache state of an analyze_phrase run (fallback otherwise). -/
def stateOf (fallback : St) : Except Unit (Output × St) → St
  | .ok (_, s) => s
  | .error _ => fallback

/-- External-fetch counts of two consecutive get_lemma_from_wiktionary
calls for the same key, None if either call raises. -/
def lemmaFetches2 (env : Env) (st : St) (lang word : String) : Option (ℕ × ℕ) :=
  match get_lemma_from_wiktionary env st lang word with
  | .error _ => none
  | .ok (_, st1, f1) =>
    match get_lemma_from_wiktionary env st1 lang word with
    | .error _ => none
    | .ok (_, _, f2) => some (f1, f2)

/-- Empty cache state. -/
def st0 : St := ⟨fun _ _ => none, fun _ _ => none⟩

/-- A benign environment: every Wiktionary page is missing, translation
echoes its input, epitran yields the empty IPA string, the feature table
and the AoA store are empty. -/
def env0 : Env where
  fetchWiki := fun _ _ => .pageMissing
  extract := fun _ _ => none
  translator := fun _ w => .ok w
  epitran := fun _ _ => .ok ""
  ipaSegs := fun _ => []
  featVec := fun _ => none
  aoaStore := fun _ => none

/-- env0 with an AoA store entry giving the word "x" the value -100. -/
def envNeg : Env := { env0 with aoaStore := fun w => if w = "x" then some (mkRat (-100) 1) else none }

/-- env0 with a failing translation service and a small AoA store. -/
def envT : Env := { env0 with
  translator := fun _ _ => .error ()
  aoaStore := fun w => if w = "hund" then some 5 else none }

/-- env0 with an AoA store containing only the word "cat". -/
def envCat : Env := { env0 with aoaStore := fun w => if w = "cat" then some 3 else none }

/-- A lemma cache state mapping the English key "running" to "run". -/
def stR : St := ⟨fun l w => if l = "en" ∧ w = "running" then some "run" else none,
                 fun _ _ => none⟩

/-- A cache state for language "de" with the lemma-cache key "hund" holding
"Hund" and the translation-cache key "hund" holding "dog". -/
def stC : St := ⟨fun l w => if l = "de" ∧ w = "hund" then some "Hund" else none,
                 fun l w => if l = "de" ∧ w = "hund" then some "dog" else none⟩

/-- The record produced by analyzing "Hund" in "de" under env0. -/
def recHund : PhraseRecord := recordOf (analyze_phrase env0 st0 "Hund" "de")

/-- The final state of analyzing "Hund" in "de" under env0. -/
def stHund : St := stateOf st0 (analyze_phrase env0 st0 "Hund" "de")

/-! ## Lemmas and claim theorems -/

lemma qadd_eq (a b : ℚ) : qadd a b = a + b := by
  have ha : ((a.den : ℚ)) ≠ 0 := by exact_mod_cast a.den_nz
  have hb : ((b.den : ℚ)) ≠ 0 := by exact_mod_cast b.den_nz
  rw [qadd, Rat.mkRat_eq_divInt, Rat.divInt_eq_div]
  push_cast
  conv_rhs => rw [← Rat.num_div_den a, ← Rat.num_div_den b, div_add_div _ _ ha hb]
  ring_nf

lemma qmul_eq (a b : ℚ) : qmul a b = a * b := by
  have ha : ((a.den : ℚ)) ≠ 0 := by exact_mod_cast a.den_nz
  have hb : ((b.den : ℚ)) ≠ 0 := by exact_mod_cast b.den_nz
  rw [qmul, Rat.mkRat_eq_divInt, Rat.divInt_eq_div]
  push_cast
  conv_rhs => rw [← Rat.num_div_den a, ← Rat.num_div_den b]
  field_simp

lemma qneg_eq (a : ℚ) : qneg a = -a := by
  have ha : ((a.den : ℚ)) ≠ 0 := by exact_mod_cast a.den_nz
  rw [qneg, Rat.mkRat_eq_divInt, Rat.divInt_eq_div]
  push_cast
  conv_rhs => rw [← Rat.num_div_den a]
  field_simp

lemma qsub_eq (a b : ℚ) : qsub a b = a - b := by
  rw [qsub, qadd_eq, qneg_eq, sub_eq_add_neg]

lemma qinv_eq (a : ℚ) : qinv a = a⁻¹ := (Rat.inv_def' a).symm

lemma qdiv_eq (a b : ℚ) : qdiv a b = a / b := by
  rw [qdiv, qmul_eq, qinv_eq, div_eq_mul_inv]

lemma qlt_iff (a b : ℚ) : qlt a b = true ↔ a < b := Iff.rfl

lemma qle_iff (a b : ℚ) : qle a b = true ↔ a ≤ b := by
  rw [qle, Bool.not_eq_true']
  exact Iff.rfl

lemma qmin_eq (a b : ℚ) : qmin a b = min a b := by
  rw [qmin]
  by_cases h : a ≤ b
  · rw [if_pos ((qle_iff a b).mpr h), min_eq_left h]
  · rw [if_neg (by simp only [qle_iff]; exact h), min_eq_right (le_of_not_le h)]

lemma pyFloor_eq (q : ℚ) : pyFloor q = ⌊q⌋ := by rw [pyFloor, Rat.floor_def]

lemma qsum_eq (l : List ℚ) : qsum l = l.sum := by
  induction l with
  | nil => rfl
  | cons x xs ih => rw [qsum, qadd_eq, ih, List.sum_cons]

lemma mkRat_one_eq (n : ℤ) : mkRat n 1 = (n : ℚ) := Rat.mkRat_one n

/-- pythonRound rewritten with standard Mathlib operations. -/
lemma pythonRound_eq (q : ℚ) : pythonRound q =
    if q - (⌊q⌋ : ℚ) < 1/2 then ⌊q⌋
    else if 1/2 < q - (⌊q⌋ : ℚ) then ⌊q⌋ + 1
    else if ⌊q⌋ % 2 = 0 then ⌊q⌋ else ⌊q⌋ + 1 := by
  rw [pythonRound]
  simp only [pyFloor_eq, mkRat_one_eq, qsub_eq]
  have h12 : mkRat 1 2 = (1/2 : ℚ) := by norm_num [Rat.mkRat_eq_divInt, Rat.divInt_eq_div]
  rw [h12]
  by_cases h1 : q - (⌊q⌋ : ℚ) < 1/2
  · rw [if_pos ((qlt_iff _ _).mpr h1), if_pos h1]
  · rw [if_neg (by rw [qlt_iff]; exact h1), if_neg h1]
    by_cases h2 : (1/2 : ℚ) < q - (⌊q⌋ : ℚ)
    · rw [if_pos ((qlt_iff _ _).mpr h2), if_pos h2]
    · rw [if_neg (by rw [qlt_iff]; exact h2), if_neg h2]

lemma pythonRound_ge_floor (q : ℚ) : ⌊q⌋ ≤ pythonRound q := by
  rw [pythonRound_eq]
  split_ifs <;> omega

lemma pythonRound_le_floor_add_one (q : ℚ) : pythonRound q ≤ ⌊q⌋ + 1 := by
  rw [pythonRound_eq]
  split_ifs <;> omega

lemma pythonRound_mono {q r : ℚ} (h : q ≤ r) : pythonRound q ≤ pythonRound r := by
  rcases lt_or_eq_of_le (Int.floor_mono h) with hf | hf
  · calc pythonRound q ≤ ⌊q⌋ + 1 := pythonRound_le_floor_add_one q
      _ ≤ ⌊r⌋ := by omega
      _ ≤ pythonRound r := pythonRound_ge_floor r
  · rw [pythonRound_eq, pythonRound_eq, ← hf]
    have hd : q - (⌊q⌋ : ℚ) ≤ r - (⌊q⌋ : ℚ) := by linarith
    split_ifs <;> first | omega | linarith

lemma pythonRound_abs_le (q : ℚ) : |(pythonRound q : ℚ) - q| ≤ 1/2 := by
  have h0 : (⌊q⌋ : ℚ) ≤ q := Int.floor_le q
  have h1 : q < (⌊q⌋ : ℚ) + 1 := Int.lt_floor_add_one q
  rw [pythonRound_eq]
  split_ifs with ha hb hc <;>
    rw [abs_le] <;> constructor <;> push_cast <;> linarith

lemma pythonRound_intCast (n : ℤ) : pythonRound ((n : ℚ)) = n := by
  rw [pythonRound_eq, Int.floor_intCast]
  have : ((n : ℚ)) - ((n : ℚ)) = 0 := sub_self _
  rw [this, if_pos (by norm_num)]

lemma roundTo_eq (d : ℕ) (q : ℚ) :
    roundTo d q = (pythonRound (q * (10 ^ d : ℚ)) : ℚ) / ((10 ^ d : ℕ) : ℚ) := by
  rw [roundTo, Rat.mkRat_eq_divInt, Rat.divInt_eq_div, qmul_eq, mkRat_one_eq]
  norm_num

lemma roundTo_mono (d : ℕ) {q r : ℚ} (h : q ≤ r) : roundTo d q ≤ roundTo d r := by
  rw [roundTo_eq, roundTo_eq]
  have hp : (0 : ℚ) < ((10 ^ d : ℕ) : ℚ) := by positivity
  have hP : (pythonRound (q * (10 ^ d : ℚ)) : ℚ) ≤ (pythonRound (r * (10 ^ d : ℚ)) : ℚ) := by
    exact_mod_cast pythonRound_mono (mul_le_mul_of_nonneg_right h (by positivity))
  gcongr

lemma roundTo_abs_le (d : ℕ) (q : ℚ) : |roundTo d q - q| ≤ 1 / (2 * 10 ^ d) := by
  rw [roundTo_eq]
  have hp : (0 : ℚ) < ((10 ^ d : ℕ) : ℚ) := by positivity
  have h := pythonRound_abs_le (q * (10 ^ d : ℚ))
  have hcast : ((10 ^ d : ℕ) : ℚ) = (10 ^ d : ℚ) := by push_cast; ring
  rw [hcast]
  rw [show (pythonRound (q * 10 ^ d) : ℚ) / (10 ^ d : ℚ) - q
      = ((pythonRound (q * 10 ^ d) : ℚ) - q * 10 ^ d) / (10 ^ d : ℚ) by
        field_simp
        ring]
  rw [abs_div, abs_of_pos (by positivity : (0:ℚ) < (10 ^ d : ℚ))]
  rw [div_le_div_iff₀ (by positivity) (by positivity)]
  calc |(pythonRound (q * 10 ^ d) : ℚ) - q * 10 ^ d| * (2 * 10 ^ d)
      ≤ (1/2) * (2 * 10 ^ d) := by
        apply mul_le_mul_of_nonneg_right h (by positivity)
    _ = 1 * 10 ^ d := by ring

lemma roundTo_intCast (d : ℕ) (n : ℤ) : roundTo d ((n : ℚ)) = n := by
  rw [roundTo_eq]
  have : ((n : ℚ)) * (10 ^ d : ℚ) = ((n * 10 ^ d : ℤ) : ℚ) := by push_cast; ring
  rw [this, pythonRound_intCast]
  have hp : ((10 ^ d : ℕ) : ℚ) ≠ 0 := by positivity
  push_cast
  field_simp

/-! ## Generic helper lemmas -/

lemma mkRat_natCast (n : ℕ) : mkRat (n : ℤ) 1 = (n : ℚ) := by
  rw [mkRat_one_eq]; push_cast; ring

lemma mkRat_eq_divQ (n : ℤ) (d : ℕ) : mkRat n d = (n : ℚ) / (d : ℚ) := by
  rw [Rat.mkRat_eq_divInt, Rat.divInt_eq_div]; norm_num

lemma qlt_eq_decide (a b : ℚ) : qlt a b = decide (a < b) := by
  by_cases h : a < b
  · rw [(qlt_iff a b).mpr h, decide_eq_true h]
  · rw [decide_eq_false h, ← Bool.not_eq_true, qlt_iff]
    exact h

/-- Mean of the list as the source computes it, in Mathlib operations. -/
lemma qmean_eq (l : List ℚ) :
    qdiv (qsum l) (mkRat (l.length : ℤ) 1) = l.sum / (l.length : ℚ) := by
  rw [qdiv_eq, qsum_eq, mkRat_natCast]

lemma list_le_mean {l : List ℚ} {b : ℚ} (hne : l ≠ []) (h : ∀ x ∈ l, b ≤ x) :
    b ≤ l.sum / (l.length : ℚ) := by
  have hpos : (0:ℚ) < (l.length : ℚ) := by
    exact_mod_cast List.length_pos.mpr hne
  rw [le_div_iff₀ hpos]
  calc b * (l.length : ℚ) = l.length • b := by rw [nsmul_eq_mul]; ring
    _ ≤ l.sum := List.card_nsmul_le_sum l b h

lemma list_mean_le {l : List ℚ} {b : ℚ} (hne : l ≠ []) (h : ∀ x ∈ l, x ≤ b) :
    l.sum / (l.length : ℚ) ≤ b := by
  have hpos : (0:ℚ) < (l.length : ℚ) := by
    exact_mod_cast List.length_pos.mpr hne
  rw [div_le_iff₀ hpos]
  calc l.sum ≤ l.length • b := List.sum_le_card_nsmul l b h
    _ = b * (l.length : ℚ) := by rw [nsmul_eq_mul]; ring

/-! ## Bounds on the score components -/

lemma length_score_le (x : ℚ) : length_score x ≤ 25 := by
  rw [length_score, qmin_eq]; exact min_le_left _ _

lemma length_score_nonneg {x : ℚ} (hx : 0 ≤ x) : 0 ≤ length_score x := by
  rw [length_score, qmin_eq, qmul_eq, qdiv_eq]
  exact le_min (by norm_num) (mul_nonneg (div_nonneg hx (by norm_num)) (by norm_num))

lemma word_count_score_le (n : ℕ) : word_count_score n ≤ 10 := by
  rw [word_count_score, qmin_eq]; exact min_le_left _ _

lemma word_count_score_nonneg (n : ℕ) : 0 ≤ word_count_score n := by
  rw [word_count_score, qmin_eq, qmul_eq, qdiv_eq, mkRat_natCast]
  exact le_min (by norm_num)
    (mul_nonneg (div_nonneg (by positivity) (by norm_num)) (by norm_num))

lemma aoa_score_le (x : ℚ) : aoa_score x ≤ 40 := by
  rw [aoa_score, qmin_eq]; exact min_le_left _ _

lemma aoa_score_nonneg {x : ℚ} (hx : 2 ≤ x) : 0 ≤ aoa_score x := by
  rw [aoa_score, qmin_eq, qmul_eq, qdiv_eq, qsub_eq]
  exact le_min (by norm_num)
    (mul_nonneg (div_nonneg (by linarith) (by norm_num)) (by norm_num))

lemma syllable_score_le (x : ℚ) : syllable_score x ≤ 10 := by
  rw [syllable_score, qmin_eq]; exact min_le_left _ _

lemma syllable_score_nonneg {x : ℚ} (hx : 0 ≤ x) : 0 ≤ syllable_score x := by
  rw [syllable_score, qmin_eq, qmul_eq, qdiv_eq]
  exact le_min (by norm_num) (mul_nonneg (div_nonneg hx (by norm_num)) (by norm_num))

lemma phoneme_score_le {x : ℚ} (hx : x ≤ 1) : phoneme_score x ≤ 15 := by
  rw [phoneme_score, qmul_eq]
  nlinarith

lemma phoneme_score_nonneg {x : ℚ} (hx : 0 ≤ x) : 0 ≤ phoneme_score x := by
  rw [phoneme_score, qmul_eq]
  positivity

/-! ## Bounds on phoneme complexity -/

lemma phonemeContribution_nonneg (env : Env) (p : String) :
    0 ≤ phonemeContribution env p := by
  rw [phonemeContribution]
  split
  · norm_num
  · rw [qdiv_eq, mkRat_natCast, mkRat_natCast]
    positivity

lemma phonemeContribution_le_one (env : Env) (p : String) :
    phonemeContribution env p ≤ 1 := by
  rw [phonemeContribution]
  split
  · exact le_refl 1
  · next v _ =>
    rw [qdiv_eq, mkRat_natCast, mkRat_natCast]
    rcases Nat.eq_zero_or_pos v.length with h0 | hpos
    · rw [h0]
      norm_num
    · rw [div_le_one (by exact_mod_cast hpos)]
      exact_mod_cast List.length_filter_le _ v

lemma calculate_phoneme_complexity_nonneg (env : Env) (s : String) :
    0 ≤ calculate_phoneme_complexity env s := by
  rw [calculate_phoneme_complexity]
  split
  · norm_num
  · next hne =>
    rw [show (env.ipaSegs s).length = ((env.ipaSegs s).map (phonemeContribution env)).length by
          rw [List.length_map], qmean_eq]
    refine le_trans (le_refl 0) (list_le_mean ?_ ?_)
    · simp [hne]
    · intro x hx
      obtain ⟨p, _, rfl⟩ := List.mem_map.mp hx
      exact phonemeContribution_nonneg env p

lemma calculate_phoneme_complexity_le_one (env : Env) (s : String) :
    calculate_phoneme_complexity env s ≤ 1 := by
  rw [calculate_phoneme_complexity]
  split
  · norm_num
  · next hne =>
    rw [show (env.ipaSegs s).length = ((env.ipaSegs s).map (phonemeContribution env)).length by
          rw [List.length_map], qmean_eq]
    refine list_mean_le ?_ ?_
    · simp [hne]
    · intro x hx
      obtain ⟨p, _, rfl⟩ := List.mem_map.mp hx
      exact phonemeContribution_le_one env p

/-! ## Shape lemmas for the pipeline -/

lemma get_aoa_cases (env : Env) (w : String) :
    ∃ a, get_aoa env w true = some a ∧ (a = 16 ∨ ∃ w', env.aoaStore w' = some a) := by
  rw [get_aoa]
  cases h : env.aoaStore (pyStrip (pyLower w)) with
  | none => exact ⟨16, rfl, Or.inl rfl⟩
  | some a => exact ⟨a, rfl, Or.inr ⟨_, h⟩⟩

lemma analyzeWord_inv {env : Env} {st : St} {word language : String} {d : WordAnalysis} {st2 : St}
    (h : analyzeWord env st word language = .ok (d, st2)) :
    (∃ a, d.aoa = some a ∧ (a = 16 ∨ ∃ w, env.aoaStore w = some a)) ∧
    (∀ x, d.phonemeComplexity = some x → 0 ≤ x ∧ x ≤ 1) := by
  rw [analyzeWord] at h
  cases hle : lemmaEnglish env st word language with
  | error e => rw [hle] at h; exact absurd h (by simp)
  | ok v =>
    obtain ⟨lem, english_word, st1, wf, tf⟩ := v
    rw [hle] at h
    cases hti : text_to_ipa env word language with
    | error e => rw [hti] at h; exact absurd h (by simp)
    | ok ipa =>
      rw [hti] at h
      simp only [Except.ok.injEq, Prod.mk.injEq] at h
      obtain ⟨hd, _⟩ := h
      subst hd
      refine ⟨get_aoa_cases env _, ?_⟩
      intro x hx
      simp only at hx
      rcases ipa with _ | s
      · exact absurd hx (by simp)
      · simp only at hx
        by_cases hs : s ≠ ""
        · rw [if_pos hs] at hx
          obtain rfl : calculate_phoneme_complexity env s = x := Option.some.inj hx
          exact ⟨calculate_phoneme_complexity_nonneg env s,
                 calculate_phoneme_complexity_le_one env s⟩
        · rw [if_neg hs] at hx
          exact absurd hx (by simp)

lemma analyzeWords_inv {env : Env} {language : String} :
    ∀ {words : List String} {st : St} {details : List WordAnalysis} {st' : St},
    analyzeWords env language st words = .ok (details, st') →
    ∀ d ∈ details,
      (∃ a, d.aoa = some a ∧ (a = 16 ∨ ∃ w, env.aoaStore w = some a)) ∧
      (∀ x, d.phonemeComplexity = some x → 0 ≤ x ∧ x ≤ 1) := by
  intro words
  induction words with
  | nil =>
    intro st details st' h d hd
    rw [analyzeWords] at h
    simp only [Except.ok.injEq, Prod.mk.injEq] at h
    obtain ⟨hdet, _⟩ := h
    subst hdet
    exact absurd hd (by simp)
  | cons w ws ih =>
    intro st details st' h d hd
    rw [analyzeWords] at h
    cases h0 : analyzeWord env st w language with
    | error e => rw [h0] at h; exact absurd h (by simp)
    | ok v0 =>
      obtain ⟨d0, st1⟩ := v0
      rw [h0] at h
      dsimp only at h
      cases h1 : analyzeWords env language st1 ws with
      | error e => rw [h1] at h; exact absurd h (by simp)
      | ok v1 =>
        obtain ⟨ds, st2⟩ := v1
        rw [h1] at h
        simp only [Except.ok.injEq, Prod.mk.injEq] at h
        obtain ⟨hdet, _⟩ := h
        subst hdet
        rcases List.mem_cons.mp hd with rfl | hmem
        · exact analyzeWord_inv h0
        · exact ih h1 d hmem

lemma analyze_phrase_record {env : Env} {st : St} {phrase lang : String}
    {r : PhraseRecord} {st' : St}
    (h : analyze_phrase env st phrase lang = .ok (.record r, st')) :
    ∃ details, analyzeWords env lang st (pySplit phrase) = .ok (details, st') ∧
      pySplit phrase ≠ [] ∧ r = mkRecord phrase lang (pySplit phrase) details := by
  simp only [analyze_phrase] at h
  by_cases hw : pySplit phrase = []
  · rw [if_pos hw] at h
    exact absurd h (by simp)
  · rw [if_neg hw] at h
    cases heq : analyzeWords env lang st (pySplit phrase) with
    | error e => rw [heq] at h; exact absurd h (by simp)
    | ok v =>
      obtain ⟨details, st2⟩ := v
      rw [heq] at h
      simp only [Except.ok.injEq, Prod.mk.injEq, Output.record.injEq] at h
      obtain ⟨hr, hst⟩ := h
      subst hst
      exact ⟨details, rfl, hw, hr.symm⟩

/-! ## Bounds on the aggregates of mkRecord -/

lemma avg_aoa_ge_two {env : Env} (details : List WordAnalysis)
    (hstore : ∀ w a, env.aoaStore w = some a → 2 ≤ a)
    (hinv : ∀ d ∈ details, ∃ a, d.aoa = some a ∧ (a = 16 ∨ ∃ w, env.aoaStore w = some a)) :
    2 ≤ avgAoA details := by
  rw [avgAoA]
  split
  · norm_num
  · next hne =>
    rw [qmean_eq]
    refine list_le_mean hne ?_
    intro x hx
    obtain ⟨d, hd, hax⟩ := List.mem_filterMap.mp hx
    obtain ⟨a, ha, hcase⟩ := hinv d hd
    rw [ha] at hax
    obtain rfl := Option.some.inj hax
    rcases hcase with rfl | ⟨w, hw⟩
    · norm_num
    · exact hstore w a hw

lemma aggregatePc_bounds (details : List WordAnalysis)
    (hinv : ∀ d ∈ details, ∀ x, d.phonemeComplexity = some x → 0 ≤ x ∧ x ≤ 1) :
    0 ≤ aggregatePc details ∧ aggregatePc details ≤ 1 := by
  have hmem : ∀ x ∈ positivePcs details, 0 ≤ x ∧ x ≤ 1 := by
    intro x hx
    obtain ⟨hx1, hx2⟩ := List.mem_filter.mp hx
    obtain ⟨d, hd, hdx⟩ := List.mem_filterMap.mp hx1
    exact ⟨le_of_lt ((qlt_iff 0 x).mp hx2), (hinv d hd x hdx).2⟩
  rw [aggregatePc]
  split
  · rw [mkRat_eq_divQ]
    norm_num
  · next hne =>
    rw [qmean_eq]
    exact ⟨le_trans (le_refl 0) (list_le_mean hne fun x hx => (hmem x hx).1),
           list_mean_le hne fun x hx => (hmem x hx).2⟩

lemma avgWordLength_nonneg (words : List String) : 0 ≤ avgWordLength words := by
  rw [avgWordLength, qdiv_eq, mkRat_natCast, mkRat_natCast]
  positivity

lemma syllableDensity_nonneg (words : List String) : 0 ≤ syllableDensity words := by
  rw [syllableDensity, qdiv_eq, mkRat_natCast, mkRat_natCast]
  positivity

lemma rawScore_bounds (words : List String) (details : List WordAnalysis)
    (hinv : ∀ d ∈ details, ∀ x, d.phonemeComplexity = some x → 0 ≤ x ∧ x ≤ 1) :
    rawScore words details ≤ 100 ∧
    (2 ≤ avgAoA details → 0 ≤ rawScore words details) := by
  have hD := aggregatePc_bounds details hinv
  rw [rawScore]
  simp only [qadd_eq]
  constructor
  · have h1 := length_score_le (avgWordLength words)
    have h2 := word_count_score_le words.length
    have h3 := aoa_score_le (avgAoA details)
    have h4 := syllable_score_le (syllableDensity words)
    have h5 := phoneme_score_le hD.2
    linarith
  · intro hB
    have h1 := length_score_nonneg (avgWordLength_nonneg words)
    have h2 := word_count_score_nonneg words.length
    have h3 := aoa_score_nonneg hB
    have h4 := syllable_score_nonneg (syllableDensity_nonneg words)
    have h5 := phoneme_score_nonneg hD.1
    linarith

/-! ## Totality of the pipeline under well-behaved lookups -/

lemma get_lemma_total (env : Env) (st : St) (lang word : String)
    (hlang : lang = "de" ∨ lang = "en") :
    ∃ v, get_lemma_from_wiktionary env st lang word = .ok v := by
  rw [get_lemma_from_wiktionary]
  cases hl : loadLemma st lang word with
  | some c => exact ⟨_, rfl⟩
  | none =>
    dsimp only
    rw [if_pos hlang]
    cases env.fetchWiki lang word with
    | raised => exact ⟨_, rfl⟩
    | pageMissing => exact ⟨_, rfl⟩
    | empty => exact ⟨_, rfl⟩
    | page content =>
      dsimp only
      cases env.extract lang content with
      | none => exact ⟨_, rfl⟩
      | some lem =>
        dsimp only
        by_cases hlem : lem = ""
        · rw [if_pos hlem]
          exact ⟨_, rfl⟩
        · rw [if_neg hlem]
          exact ⟨_, rfl⟩

lemma translate_total (env : Env) (st : St) (lang word : String)
    (htr : ∀ l w, ∃ t, env.translator l w = .ok t) :
    ∃ v, translate_to_english env st lang word = .ok v := by
  rw [translate_to_english]
  by_cases h : lang = "en"
  · rw [if_pos h]
    exact ⟨_, rfl⟩
  · rw [if_neg h]
    cases hl : loadTranslation st lang word with
    | some c => exact ⟨_, rfl⟩
    | none =>
      obtain ⟨t, ht⟩ := htr lang word
      rw [ht]
      exact ⟨_, rfl⟩

lemma text_to_ipa_total (env : Env) (text lang : String)
    (hep : ∀ l w, ∃ s, env.epitran l w = .ok s) :
    ∃ v, text_to_ipa env text lang = .ok v := by
  rw [text_to_ipa]
  by_cases h : lang = "en" ∨ lang = "de"
  · rw [if_pos h]
    obtain ⟨s, hs⟩ := hep lang text
    rw [hs]
    exact ⟨_, rfl⟩
  · rw [if_neg h]
    exact ⟨_, rfl⟩

lemma analyzeWord_total (env : Env) (st : St) (word lang : String)
    (hlang : lang = "de" ∨ lang = "en")
    (htr : ∀ l w, ∃ t, env.translator l w = .ok t)
    (hep : ∀ l w, ∃ s, env.epitran l w = .ok s) :
    ∃ v, analyzeWord env st word lang = .ok v := by
  rw [analyzeWord, lemmaEnglish]
  obtain ⟨⟨lem, st1, wf⟩, h1⟩ := get_lemma_total env st lang word hlang
  rw [h1]
  dsimp only
  obtain ⟨⟨ew, st2, tf⟩, h2⟩ := translate_total env st1 lang lem htr
  rw [h2]
  dsimp only
  obtain ⟨ipa, h3⟩ := text_to_ipa_total env word lang hep
  rw [h3]
  exact ⟨_, rfl⟩

lemma analyzeWords_total (env : Env) (lang : String)
    (htr : ∀ l w, ∃ t, env.translator l w = .ok t)
    (hep : ∀ l w, ∃ s, env.epitran l w = .ok s)
    (hlang : lang = "de" ∨ lang = "en") :
    ∀ (words : List String) (st : St), ∃ v, analyzeWords env lang st words = .ok v := by
  intro words
  induction words with
  | nil => exact fun st => ⟨_, rfl⟩
  | cons w ws ih =>
    intro st
    rw [analyzeWords]
    obtain ⟨⟨d, st1⟩, h1⟩ := analyzeWord_total env st w lang hlang htr hep
    rw [h1]
    dsimp only
    obtain ⟨⟨ds, st2⟩, h2⟩ := ih st1
    rw [h2]
    exact ⟨_, rfl⟩

/-! ## Cache write/read composition -/

lemma loadLemma_saveLemma (st : St) (lang word c : String) :
    loadLemma (saveLemma st lang word c) lang word =
      if pyStrip c = "" then none else some (pyStrip c) := by
  rw [loadLemma, saveLemma]
  simp

lemma second_call_hits (env : Env) (st : St) (lang word c dflt : String)
    (hc : pyStrip c ≠ "") :
    (loadLemma (saveLemma st lang word c) lang word).isSome = true ∧
    get_lemma_from_wiktionary env (saveLemma st lang word c) lang word =
      .ok ((loadLemma (saveLemma st lang word c) lang word).getD dflt,
           saveLemma st lang word c, 0) := by
  have hload := loadLemma_saveLemma st lang word c
  rw [if_neg hc] at hload
  refine ⟨by rw [hload]; rfl, ?_⟩
  rw [get_lemma_from_wiktionary, hload]
  rfl

lemma roundTo_le_int {x : ℚ} {n : ℤ} (d : ℕ) (h : x ≤ (n:ℚ)) : roundTo d x ≤ (n:ℚ) :=
  le_trans (roundTo_mono d h) (le_of_eq (roundTo_intCast d n))

/-! ## Claim theorems -/

/-- C9: for the empty phrase, analyze_phrase returns the zero-score error
record (difficulty_score 0, error marker) and does not raise. -/
theorem analyze_empty_phrase (env : Env) (st : St) (lang : String) :
    analyze_phrase env st "" lang = .ok (.errorRecord 0, st) := rfl

/-- C2 (amended): the difficulty score returned by analyze_phrase is at
most 100 for every input; it is also at least 0 provided every AoA value
in the reference store is at least 2 (the aoa component
min(40, (avg_aoa - 2)/16*40) has no lower cap, so smaller stored AoA
values can drive the total below 0). -/
theorem analyze_score_bounds (env : Env) (st : St) (phrase lang : String)
    (r : PhraseRecord) (st' : St)
    (h : analyze_phrase env st phrase lang = .ok (.record r, st')) :
    r.difficulty_score ≤ 100 ∧
    ((∀ w a, env.aoaStore w = some a → 2 ≤ a) → 0 ≤ r.difficulty_score) := by
  obtain ⟨details, hdet, hne, hr⟩ := analyze_phrase_record h
  have hinv := analyzeWords_inv hdet
  subst hr
  have hbounds := rawScore_bounds (pySplit phrase) details (fun d hd => (hinv d hd).2)
  have hds : (mkRecord phrase lang (pySplit phrase) details).difficulty_score
      = roundTo 1 (rawScore (pySplit phrase) details) := rfl
  rw [hds]
  constructor
  · calc roundTo 1 (rawScore (pySplit phrase) details) ≤ roundTo 1 (100 : ℚ) :=
        roundTo_mono 1 hbounds.1
      _ = ((100 : ℤ) : ℚ) := by
        rw [show (100:ℚ) = ((100:ℤ):ℚ) by norm_num, roundTo_intCast]
      _ ≤ 100 := by norm_num
  · intro hstore
    have hB := avg_aoa_ge_two details hstore (fun d hd => (hinv d hd).1)
    calc (0 : ℚ) = ((0:ℤ):ℚ) := by norm_num
      _ = roundTo 1 ((0:ℤ):ℚ) := (roundTo_intCast 1 0).symm
      _ ≤ roundTo 1 (rawScore (pySplit phrase) details) := by
          apply roundTo_mono
          push_cast
          exact hbounds.2 hB

/-- C2 counterexample: with a reference store holding AoA -100 for the
word "x", analyzing the one-word phrase "x" in "en" yields the difficulty
score -238.6, which is not in [0, 100] — the claim fails for stores with
AoA values below 2. -/
theorem difficulty_score_negative_cex :
    difficultyScoreOf (analyze_phrase envNeg st0 "x" "en") = some (mkRat (-1193) 5) ∧
    mkRat (-1193) 5 < 0 := ⟨by decide, by decide⟩

/-- C2 witness. -/
theorem analyze_score_bounds_witness :
    recHund.difficulty_score ≤ 100 ∧ 0 ≤ recHund.difficulty_score := by
  have h := analyze_score_bounds env0 st0 "Hund" "de" recHund stHund rfl
  exact ⟨h.1, h.2 (fun w a ha => by simp [env0] at ha)⟩

/-- C3: for every successful analysis, the five returned score components
are capped at 25/10/40/10/15 respectively, and their sum equals the
returned difficulty score up to the per-field rounding to one decimal
digit (each of the six values is rounded independently, so the
discrepancy is bounded by 6 * 0.05 = 0.3). -/
theorem score_components_relation (env : Env) (st : St) (phrase lang : String)
    (r : PhraseRecord) (st' : St)
    (h : analyze_phrase env st phrase lang = .ok (.record r, st')) :
    |r.score_components.total - r.difficulty_score| ≤ 3/10 ∧
    r.score_components.length_score ≤ 25 ∧
    r.score_components.word_count_score ≤ 10 ∧
    r.score_components.aoa_score ≤ 40 ∧
    r.score_components.syllable_score ≤ 10 ∧
    r.score_components.phoneme_score ≤ 15 := by
  obtain ⟨details, hdet, hne, hr⟩ := analyze_phrase_record h
  have hinv := analyzeWords_inv hdet
  subst hr
  have hD := aggregatePc_bounds details (fun d hd => (hinv d hd).2)
  have htot : (mkRecord phrase lang (pySplit phrase) details).score_components.total =
      roundTo 1 (length_score (avgWordLength (pySplit phrase))) +
      roundTo 1 (word_count_score (pySplit phrase).length) +
      roundTo 1 (aoa_score (avgAoA details)) +
      roundTo 1 (syllable_score (syllableDensity (pySplit phrase))) +
      roundTo 1 (phoneme_score (aggregatePc details)) := rfl
  have hds : (mkRecord phrase lang (pySplit phrase) details).difficulty_score
      = roundTo 1 (rawScore (pySplit phrase) details) := rfl
  have hraw : rawScore (pySplit phrase) details =
      length_score (avgWordLength (pySplit phrase)) +
      word_count_score (pySplit phrase).length +
      aoa_score (avgAoA details) +
      syllable_score (syllableDensity (pySplit phrase)) +
      phoneme_score (aggregatePc details) := by
    rw [rawScore]
    simp only [qadd_eq]
  refine ⟨?_, ?_, ?_, ?_, ?_, ?_⟩
  · rw [htot, hds]
    have h1 := abs_le.mp (roundTo_abs_le 1 (length_score (avgWordLength (pySplit phrase))))
    have h2 := abs_le.mp (roundTo_abs_le 1 (word_count_score (pySplit phrase).length))
    have h3 := abs_le.mp (roundTo_abs_le 1 (aoa_score (avgAoA details)))
    have h4 := abs_le.mp (roundTo_abs_le 1 (syllable_score (syllableDensity (pySplit phrase))))
    have h5 := abs_le.mp (roundTo_abs_le 1 (phoneme_score (aggregatePc details)))
    have h6 := abs_le.mp (roundTo_abs_le 1 (rawScore (pySplit phrase) details))
    rw [abs_le]
    constructor <;>
      · obtain ⟨h1a, h1b⟩ := h1
        obtain ⟨h2a, h2b⟩ := h2
        obtain ⟨h3a, h3b⟩ := h3
        obtain ⟨h4a, h4b⟩ := h4
        obtain ⟨h5a, h5b⟩ := h5
        obtain ⟨h6a, h6b⟩ := h6
        norm_num at h1a h1b h2a h2b h3a h3b h4a h4b h5a h5b h6a h6b ⊢
        linarith
  · show roundTo 1 (length_score (avgWordLength (pySplit phrase))) ≤ 25
    have := roundTo_le_int 1 (show length_score (avgWordLength (pySplit phrase)) ≤ ((25:ℤ):ℚ)
      by exact_mod_cast length_score_le _)
    exact_mod_cast this
  · show roundTo 1 (word_count_score (pySplit phrase).length) ≤ 10
    have := roundTo_le_int 1 (show word_count_score (pySplit phrase).length ≤ ((10:ℤ):ℚ)
      by exact_mod_cast word_count_score_le _)
    exact_mod_cast this
  · show roundTo 1 (aoa_score (avgAoA details)) ≤ 40
    have := roundTo_le_int 1 (show aoa_score (avgAoA details) ≤ ((40:ℤ):ℚ)
      by exact_mod_cast aoa_score_le _)
    exact_mod_cast this
  · show roundTo 1 (syllable_score (syllableDensity (pySplit phrase))) ≤ 10
    have := roundTo_le_int 1 (show syllable_score (syllableDensity (pySplit phrase)) ≤ ((10:ℤ):ℚ)
      by exact_mod_cast syllable_score_le _)
    exact_mod_cast this
  · show roundTo 1 (phoneme_score (aggregatePc details)) ≤ 15
    have := roundTo_le_int 1 (show phoneme_score (aggregatePc details) ≤ ((15:ℤ):ℚ)
      by exact_mod_cast phoneme_score_le hD.2)
    exact_mod_cast this

/-- C3 witness. -/
theorem score_components_relation_witness :
    |recHund.score_components.total - recHund.difficulty_score| ≤ 3/10 ∧
    recHund.score_components.length_score ≤ 25 ∧
    recHund.score_components.word_count_score ≤ 10 ∧
    recHund.score_components.aoa_score ≤ 40 ∧
    recHund.score_components.syllable_score ≤ 10 ∧
    recHund.score_components.phoneme_score ≤ 15 :=
  score_components_relation env0 st0 "Hund" "de" recHund stHund rfl

/-- C8: for every successful analysis, the aggregate phoneme_complexity of
the returned record equals the mean of the per-word complexity values in
word_details that are defined and strictly positive, with fallback 0.75
when no word yields such a value; in particular it is always defined. -/
theorem phoneme_complexity_field (env : Env) (st : St) (phrase lang : String)
    (r : PhraseRecord) (st' : St)
    (h : analyze_phrase env st phrase lang = .ok (.record r, st')) :
    r.phoneme_complexity =
      (if ((r.word_details.filterMap fun d => d.phonemeComplexity).filter fun x => decide (0 < x)) = []
       then 3/4
       else ((r.word_details.filterMap fun d => d.phonemeComplexity).filter fun x => decide (0 < x)).sum /
            ((((r.word_details.filterMap fun d => d.phonemeComplexity).filter fun x => decide (0 < x)).length : ℕ) : ℚ)) := by
  obtain ⟨details, hdet, hne, hr⟩ := analyze_phrase_record h
  subst hr
  have hwd : (mkRecord phrase lang (pySplit phrase) details).word_details = details := rfl
  have hpc : (mkRecord phrase lang (pySplit phrase) details).phoneme_complexity =
      aggregatePc details := rfl
  rw [hwd, hpc, aggregatePc, positivePcs]
  have hfilter : (fun x : ℚ => qlt 0 x) = (fun x : ℚ => decide (0 < x)) := by
    funext x
    exact qlt_eq_decide 0 x
  rw [hfilter]
  by_cases hc : ((details.filterMap fun d => d.phonemeComplexity).filter fun x => decide (0 < x)) = []
  · rw [if_pos hc, if_pos hc, mkRat_eq_divQ]
    norm_num
  · rw [if_neg hc, if_neg hc, qmean_eq]

/-- C8 witness. -/
theorem phoneme_complexity_field_witness :
    recHund.phoneme_complexity =
      (if ((recHund.word_details.filterMap fun d => d.phonemeComplexity).filter fun x => decide (0 < x)) = []
       then 3/4
       else ((recHund.word_details.filterMap fun d => d.phonemeComplexity).filter fun x => decide (0 < x)).sum /
            ((((recHund.word_details.filterMap fun d => d.phonemeComplexity).filter fun x => decide (0 < x)).length : ℕ) : ℚ)) :=
  phoneme_complexity_field env0 st0 "Hund" "de" recHund stHund rfl

/-- C1 (amended): analyze_phrase never raises for a non-empty phrase in a
supported language ("de"/"en") provided the translation service and the
epitran transliterator do not raise; a lexical-reference failure is always
recovered by the word -> word fallback (get_lemma_from_wiktionary only
raises for an unsupported language).  The original claim fails because
translate_to_english and text_to_ipa have no exception handler — see the
counterexample. -/
theorem analyze_phrase_no_raise (env : Env) (st : St) (phrase lang : String)
    (hlang : lang = "de" ∨ lang = "en")
    (htr : ∀ l w, ∃ t, env.translator l w = .ok t)
    (hep : ∀ l w, ∃ s, env.epitran l w = .ok s)
    (hph : pySplit phrase ≠ []) :
    isFullRecord (analyze_phrase env st phrase lang) = true := by
  simp only [analyze_phrase]
  rw [if_neg hph]
  obtain ⟨⟨details, st2⟩, hws⟩ := analyzeWords_total env lang htr hep hlang (pySplit phrase) st
  rw [hws]
  rfl

/-- C1 counterexample: for the non-empty phrase "Hund" with language "de",
an empty visible cache, and a translation service that raises, the
exception propagates out of analyze_phrase (the AoA store exists and even
contains "hund"). -/
theorem analyze_translation_error_cex :
    pySplit "Hund" ≠ [] ∧ analyze_phrase envT st0 "Hund" "de" = .error () :=
  ⟨by decide, rfl⟩

/-- C1 witness. -/
theorem analyze_phrase_no_raise_witness :
    isFullRecord (analyze_phrase env0 st0 "Hund" "de") = true :=
  analyze_phrase_no_raise env0 st0 "Hund" "de" (Or.inl rfl)
    (fun l w => ⟨w, rfl⟩) (fun l w => ⟨"", rfl⟩) (by decide)

/-- C4 (amended): get_aoa consults the store only at the single key
word.lower().strip(); when that key is absent it immediately returns the
16.0 fallback (or signals not-found when the fallback is disabled) — no
alphanumeric-stripped variant of the word is tried first, contrary to the
original claim (see the counterexample). -/
theorem get_aoa_single_key_lookup (env : Env) (word : String) :
    (∀ a, env.aoaStore (pyStrip (pyLower word)) = some a →
      get_aoa env word true = some a ∧ get_aoa env word false = some a) ∧
    (env.aoaStore (pyStrip (pyLower word)) = none →
      get_aoa env word true = some 16 ∧ get_aoa env word false = none) := by
  constructor
  · intro a ha
    rw [get_aoa, get_aoa, ha]
    exact ⟨rfl, rfl⟩
  · intro h
    rw [get_aoa, get_aoa, h]
    exact ⟨rfl, rfl⟩

/-- C4 counterexample: the store holds the alphanumeric-stripped variant
"cat" of the word "cat!", yet get_aoa returns the 16.0 fallback instead of
the stored value 3 — the stripped variant is never tried. -/
theorem get_aoa_no_stripped_retry_cex :
    get_aoa envCat "cat!" true = some 16 ∧
    envCat.aoaStore (cleanWord "cat!") = some 3 ∧ ¬ ((16 : ℚ) = 3) :=
  ⟨by decide, by decide, by decide⟩

/-- C4 witness: the found case for a store holding "cat", and the
not-found case (also the spec's testable property
getAoA("zzzqqqnonsense") = 16.0). -/
theorem get_aoa_single_key_lookup_witness :
    (get_aoa envCat "cat" true = some 3 ∧ get_aoa envCat "cat" false = some 3) ∧
    (get_aoa env0 "zzzqqqnonsense" true = some 16 ∧ get_aoa env0 "zzzqqqnonsense" false = none) :=
  ⟨(get_aoa_single_key_lookup envCat "cat").1 3 (by decide),
   (get_aoa_single_key_lookup env0 "zzzqqqnonsense").2 rfl⟩

/-- C5 (amended): in the per-word pipeline the English form passed to the
AoA lookup is the result of translate_to_english(lemma, language) in every
case; for language "en" this equals lemma.lower() — not word.lower() as
the original claim states — and no translation fetch occurs (translate
call count 0).  See the counterexample where the two differ. -/
theorem english_form_from_lemma (env : Env) (st : St) (word lang lem : String)
    (st1 : St) (wf : ℕ)
    (h : get_lemma_from_wiktionary env st lang word = .ok (lem, st1, wf)) :
    (∀ ew st2 tf, translate_to_english env st1 lang lem = .ok (ew, st2, tf) →
      lemmaEnglish env st word lang = .ok (lem, ew, st2, wf, tf)) ∧
    (lang = "en" → lemmaEnglish env st word lang = .ok (lem, pyLower lem, st1, wf, 0)) := by
  constructor
  · intro ew st2 tf ht
    rw [lemmaEnglish, h]
    dsimp only
    rw [ht]
  · intro hlang
    subst hlang
    rw [lemmaEnglish, h]
    dsimp only
    rw [translate_to_english, if_pos rfl]

/-- C5 counterexample: with the ("en", "running") lemma-cache entry "run",
the English form passed to the AoA lookup is "run", which differs from
"running".lower() = "running"; the translation call count is 0 as
claimed. -/
theorem english_form_not_word_lower_cex :
    lemmaEnglish env0 stR "running" "en" = .ok ("run", "run", stR, 0, 0) ∧
    pyLower "running" = "running" ∧ ("run" : String) ≠ "running" :=
  ⟨rfl, by decide, by decide⟩

/-- C5 witness. -/
theorem english_form_from_lemma_witness :
    lemmaEnglish env0 st0 "Hund" "en" =
      .ok ("Hund", pyLower "Hund", saveLemma st0 "en" "Hund" "Hund", 1, 0) :=
  (english_form_from_lemma env0 st0 "Hund" "en" "Hund"
    (saveLemma st0 "en" "Hund" "Hund") 1 rfl).2 rfl

/-- C7 (amended): for every key whose word strips to a non-empty string,
once a first get_lemma_from_wiktionary call has completed (writing the
key's value on a miss), the next call for the same key is a cache hit: it
performs 0 external fetches, leaves the state unchanged, and returns the
cached value.  The restriction to words with a non-whitespace character is
forced by the counterexample: the cache read treats an empty stripped file
as a miss, so the key of the empty word is re-fetched on every call.  The
hypothesis on extract reflects that _extract_lemma_from_wiktionary only
ever returns stripped match groups. -/
theorem resolve_lemma_cached_after_first (env : Env) (st : St) (lang word r1 : String)
    (st1 : St) (f1 : ℕ)
    (hw : pyStrip word ≠ "")
    (hx : ∀ l c s, env.extract l c = some s → pyStrip s = s)
    (h1 : get_lemma_from_wiktionary env st lang word = .ok (r1, st1, f1)) :
    (loadLemma st1 lang word).isSome = true ∧
    get_lemma_from_wiktionary env st1 lang word =
      .ok ((loadLemma st1 lang word).getD r1, st1, 0) := by
  rw [get_lemma_from_wiktionary] at h1
  cases hl : loadLemma st lang word with
  | some cached =>
    rw [hl] at h1
    dsimp only at h1
    simp only [Except.ok.injEq, Prod.mk.injEq] at h1
    obtain ⟨hc, hst, hf⟩ := h1
    subst hst
    refine ⟨by rw [hl]; rfl, ?_⟩
    rw [get_lemma_from_wiktionary, hl]
    dsimp only
    rw [hc]
    rfl
  | none =>
    rw [hl] at h1
    dsimp only at h1
    by_cases hde : lang = "de" ∨ lang = "en"
    · rw [if_pos hde] at h1
      cases hf : env.fetchWiki lang word with
      | raised =>
        rw [hf] at h1
        dsimp only at h1
        simp only [Except.ok.injEq, Prod.mk.injEq] at h1
        obtain ⟨_, hst, _⟩ := h1
        subst hst
        exact second_call_hits env st lang word word r1 hw
      | pageMissing =>
        rw [hf] at h1
        dsimp only at h1
        simp only [Except.ok.injEq, Prod.mk.injEq] at h1
        obtain ⟨_, hst, _⟩ := h1
        subst hst
        exact second_call_hits env st lang word word r1 hw
      | empty =>
        rw [hf] at h1
        dsimp only at h1
        simp only [Except.ok.injEq, Prod.mk.injEq] at h1
        obtain ⟨_, hst, _⟩ := h1
        subst hst
        exact second_call_hits env st lang word word r1 hw
      | page content =>
        rw [hf] at h1
        dsimp only at h1
        cases hx2 : env.extract lang content with
        | none =>
          rw [hx2] at h1
          dsimp only at h1
          simp only [Except.ok.injEq, Prod.mk.injEq] at h1
          obtain ⟨_, hst, _⟩ := h1
          subst hst
          exact second_call_hits env st lang word word r1 hw
        | some lem =>
          rw [hx2] at h1
          dsimp only at h1
          by_cases hlem : lem = ""
          · rw [if_pos hlem] at h1
            simp only [Except.ok.injEq, Prod.mk.injEq] at h1
            obtain ⟨_, hst, _⟩ := h1
            subst hst
            exact second_call_hits env st lang word word r1 hw
          · rw [if_neg hlem] at h1
            simp only [Except.ok.injEq, Prod.mk.injEq] at h1
            obtain ⟨_, hst, _⟩ := h1
            subst hst
            have hlem' : pyStrip lem ≠ "" := by
              rw [hx lang content lem hx2]
              exact hlem
            exact second_call_hits env st lang word lem r1 hlem'
    · rw [if_neg hde] at h1
      exact absurd h1 (by simp)

/-- C7 counterexample: for the key ("de", "") the cache read treats the
stripped-empty cached file as a miss, so each of two consecutive calls
performs one external fetch — the external lookup runs twice for one key
even though the first call wrote the key's value. -/
theorem resolve_lemma_empty_word_cex :
    lemmaFetches2 env0 st0 "de" "" = some (1, 1) := by decide

/-- C7 witness. -/
theorem resolve_lemma_cached_after_first_witness :
    (loadLemma (saveLemma st0 "de" "Hund" "Hund") "de" "Hund").isSome = true ∧
    get_lemma_from_wiktionary env0 (saveLemma st0 "de" "Hund" "Hund") "de" "Hund" =
      .ok ((loadLemma (saveLemma st0 "de" "Hund" "Hund") "de" "Hund").getD "Hund",
           saveLemma st0 "de" "Hund" "Hund", 0) :=
  resolve_lemma_cached_after_first env0 st0 "de" "Hund" "Hund"
    (saveLemma st0 "de" "Hund" "Hund") 1 (by decide)
    (fun l c s h => absurd h (by simp [env0])) rfl

/-- C10 (implicit): both persistent caches key an entry on the language
together with the lower-cased alphanumeric-only projection of the word
(cleanWord); hence two words with equal projections share one cache entry,
and a resolveLemma or translateToEnglish call for one word returns the
value cached for the other. -/
theorem cache_key_projection_collision (env : Env) (st : St) (lang w1 w2 v u : String)
    (hclean : cleanWord w1 = cleanWord w2) :
    (loadLemma st lang w1 = loadLemma st lang w2 ∧
     loadTranslation st lang w1 = loadTranslation st lang w2) ∧
    (st.lemmaCache lang (cleanWord w1) = some v → pyStrip v ≠ "" →
      get_lemma_from_wiktionary env st lang w2 = .ok (pyStrip v, st, 0)) ∧
    (st.transCache lang (cleanWord w1) = some u → lang ≠ "en" →
      translate_to_english env st lang w2 = .ok (pyStrip u, st, 0)) := by
  refine ⟨⟨?_, ?_⟩, ?_, ?_⟩
  · rw [loadLemma, loadLemma, hclean]
  · rw [loadTranslation, loadTranslation, hclean]
  · intro hv hne
    have hload : loadLemma st lang w2 = some (pyStrip v) := by
      rw [loadLemma, ← hclean, hv]
      dsimp only
      rw [if_neg hne]
    rw [get_lemma_from_wiktionary, hload]
  · intro hu hen
    have hload : loadTranslation st lang w2 = some (pyStrip u) := by
      rw [loadTranslation, ← hclean, hu]
      rfl
    rw [translate_to_english, if_neg hen, hload]

/-- C10 witness: "Hund" and "hund!" share the projection "hund"; the lemma
resolver and the translator return the values cached for "Hund". -/
theorem cache_key_projection_collision_witness :
    (loadLemma stC "de" "Hund" = loadLemma stC "de" "hund!" ∧
     loadTranslation stC "de" "Hund" = loadTranslation stC "de" "hund!") ∧
    get_lemma_from_wiktionary env0 stC "de" "hund!" = .ok (pyStrip "Hund", stC, 0) ∧
    translate_to_english env0 stC "de" "hund!" = .ok (pyStrip "dog", stC, 0) := by
  have h := cache_key_projection_collision env0 stC "de" "Hund" "hund!" "Hund" "dog" (by decide)
  exact ⟨h.1, h.2.1 (by decide) (by decide), h.2.2 (by decide) (by decide)⟩

/-- C6: score_to_level always yields a level in [1, 1000]; it equals the
spec's clamp formula (per-language linear calibration when a pair exists,
round(score*10) fallback otherwise, with Python's round-half-to-even); and
for a fixed language it is non-decreasing in the score. -/
theorem score_to_level_props (lang : String) (s t : ℚ) :
    (1 ≤ score_to_level s lang ∧ score_to_level s lang ≤ 1000) ∧
    score_to_level s lang = specLevel s lang ∧
    (s ≤ t → score_to_level s lang ≤ score_to_level t lang) := by
  refine ⟨?_, ?_, ?_⟩
  · rw [score_to_level]
    cases score_ranges lang with
    | none => exact ⟨le_max_left _ _, max_le (by norm_num) (min_le_left _ _)⟩
    | some p =>
      obtain ⟨lo, hi⟩ := p
      exact ⟨le_max_left _ _, max_le (by norm_num) (min_le_left _ _)⟩
  · rw [score_to_level, specLevel]
    cases score_ranges lang with
    | none => rw [qmul_eq]
    | some p =>
      obtain ⟨lo, hi⟩ := p
      dsimp only
      rw [qmul_eq, qdiv_eq, qsub_eq, qsub_eq]
  · intro hst
    rw [score_to_level, score_to_level]
    cases hr : score_ranges lang with
    | none =>
      have hm : pythonRound (qmul s 10) ≤ pythonRound (qmul t 10) := by
        rw [qmul_eq, qmul_eq]
        exact pythonRound_mono (by linarith)
      exact max_le_max (le_refl 1) (min_le_min (le_refl 1000) hm)
    | some p =>
      obtain ⟨lo, hi⟩ := p
      have hpos : (0:ℚ) < hi - lo := by
        rw [score_ranges] at hr
        by_cases h1 : lang = "en-GB"
        · rw [if_pos h1] at hr
          simp only [Option.some.injEq, Prod.mk.injEq] at hr
          obtain ⟨hlo, hhi⟩ := hr
          subst hlo; subst hhi
          rw [mkRat_eq_divQ, mkRat_eq_divQ]
          norm_num
        · rw [if_neg h1] at hr
          by_cases h2 : lang = "de-DE"
          · rw [if_pos h2] at hr
            simp only [Option.some.injEq, Prod.mk.injEq] at hr
            obtain ⟨hlo, hhi⟩ := hr
            subst hlo; subst hhi
            rw [mkRat_eq_divQ, mkRat_eq_divQ]
            norm_num
          · rw [if_neg h2] at hr
            by_cases h3 : lang = "fr-FR"
            · rw [if_pos h3] at hr
              simp only [Option.some.injEq, Prod.mk.injEq] at hr
              obtain ⟨hlo, hhi⟩ := hr
              subst hlo; subst hhi
              rw [mkRat_eq_divQ, mkRat_eq_divQ]
              norm_num
            · rw [if_neg h3] at hr
              exact absurd hr (by simp)
      have hdiv : (s - lo) / (hi - lo) * 999 ≤ (t - lo) / (hi - lo) * 999 := by
        have h1 : (s - lo) / (hi - lo) ≤ (t - lo) / (hi - lo) := by
          gcongr
        nlinarith
      have hm : pythonRound (qmul (qdiv (qsub s lo) (qsub hi lo)) 999) + 1 ≤
                pythonRound (qmul (qdiv (qsub t lo) (qsub hi lo)) 999) + 1 := by
        simp only [qmul_eq, qdiv_eq, qsub_eq]
        exact add_le_add_right (pythonRound_mono hdiv) 1
      dsimp only
      exact max_le_max (le_refl 1) (min_le_min (le_refl 1000) hm)

/-- C6 witness (language "en-GB", scores 20 and 30). -/
theorem score_to_level_props_witness :
    (1 ≤ score_to_level 20 "en-GB" ∧ score_to_level 20 "en-GB" ≤ 1000) ∧
    score_to_level 20 "en-GB" = specLevel 20 "en-GB" ∧
    score_to_level 20 "en-GB" ≤ score_to_level 30 "en-GB" := by
  obtain ⟨h1, h2, h3⟩ := score_to_level_props "en-GB" 20 30
  exact ⟨h1, h2, h3 (by norm_num)⟩
